import Mathlib

/-!
Verification of `embedded-nal-plus` (src/src/lib.rs).

The crate provides `StackAndSocket`, a pairing of a mutable reference to a
`TcpClientStack` and one of its sockets, with pass-through `connect`,
`is_connected`, `receive`, `send` methods and a `ufmt::uWrite::write_str`
implementation that repeatedly calls the stack's non-blocking `send`
(through `nb::block!`, which retries on `WouldBlock`) until the whole
message has been accepted.

Shallow embedding choices:
* Byte buffers are `List Nat` (the `message.as_bytes()` step of `write_str`
  is absorbed by stating theorems over the byte list of the message).
* The underlying stack's `send` for a fixed socket is an arbitrary function
  `σ → List Nat → SendResult ε × σ` over an abstract mutable state `σ`
  (the combined state of the `&mut TcpClientStack` and `&mut TcpSocket`);
  `SendResult` mirrors `nb::Result<usize, Error>`.
* The `while cursor < message.len()` loop of `write_str`, with `nb::block!`
  fused in (a `WouldBlock` result re-attempts the same send without moving
  the cursor), becomes the fuel-indexed `writeStrLoop`; `none` models
  non-termination within the given fuel.  Each underlying send attempt is
  recorded in a trace as the buffer passed and the result returned.
-/

/-- Result of one underlying `send` attempt, mirroring
`nb::Result<usize, Error> = Result<usize, nb::Error<Error>>`:
`ok n` for `Ok(n)`, `wouldBlock` for `Err(nb::Error::WouldBlock)`,
`error e` for `Err(nb::Error::Other(e))`. -/
inductive SendResult (ε : Type) where
  | ok : Nat → SendResult ε
  | wouldBlock : SendResult ε
  | error : ε → SendResult ε
deriving DecidableEq

/-- A recorded send attempt: the buffer passed to the stack's `send`
together with the result the stack returned. -/
abbrev Trace (ε : Type) := List (List Nat × SendResult ε)

/-- Bytes a single recorded attempt reported as accepted:
`n` for `ok n`, `0` otherwise. -/
def okCount {ε : Type} (e : List Nat × SendResult ε) : Nat :=
  match e.2 with
  | SendResult.ok n => n
  | _ => 0

/-- Total byte count reported accepted across all attempts of a trace:
the final value of `write_str`'s `cursor` is the starting cursor plus this. -/
def sumOK {ε : Type} (tr : Trace ε) : Nat :=
  (tr.map okCount).sum

/-- Number of successful (`ok`) attempts in a trace. -/
def countOK {ε : Type} (tr : Trace ε) : Nat :=
  tr.countP (fun e =>
    match e.2 with
    | SendResult.ok _ => true
    | _ => false)

/-- Number of would-block attempts in a trace. -/
def countWB {ε : Type} (tr : Trace ε) : Nat :=
  tr.countP (fun e =>
    match e.2 with
    | SendResult.wouldBlock => true
    | _ => false)

/-- Bytes actually accepted by the underlying sends, concatenated in call
order: a successful attempt `ok n` on buffer `buf` accepts `buf.take n`. -/
def acceptedBytes {ε : Type} (tr : Trace ε) : List Nat :=
  (tr.map (fun e =>
    match e.2 with
    | SendResult.ok n => e.1.take n
    | _ => [])).flatten

/-- Fuel-indexed embedding of the loop of `write_str` (src/src/lib.rs
lines 77-87), from an arbitrary cursor:

```
while cursor < message.len() {
    let n = nb::block!(self.tcp_stack.send(self.socket, &message[cursor..]))?;
    cursor += n;
}
Ok(())
```

`nb::block!` is fused into the loop: a `wouldBlock` result re-attempts the
same send with the cursor unchanged; `error e` makes the `?` operator
return `Err(e)`; `ok n` advances the cursor by `n`.  One unit of fuel is
consumed per underlying send attempt; `none` means the fuel ran out, i.e.
the loop had not returned after `fuel` attempts.  The result also carries
the final stack state and the trace of all attempts in call order. -/
def writeStrLoop {σ ε : Type} (send : σ → List Nat → SendResult ε × σ) :
    Nat → σ → List Nat → Nat → Option (Except ε Unit × σ × Trace ε)
  | fuel, s, message, cursor =>
    if cursor < message.length then
      match fuel with
      | 0 => none
      | fuel + 1 =>
        match send s (message.drop cursor) with
        | (SendResult.ok n, s1) =>
          (writeStrLoop send fuel s1 message (cursor + n)).map
            (fun r => (r.1, r.2.1, (message.drop cursor, SendResult.ok n) :: r.2.2))
        | (SendResult.wouldBlock, s1) =>
          (writeStrLoop send fuel s1 message cursor).map
            (fun r => (r.1, r.2.1, (message.drop cursor, SendResult.wouldBlock) :: r.2.2))
        | (SendResult.error e, s1) =>
          some (Except.error e, s1, [(message.drop cursor, SendResult.error e)])
    else
      some (Except.ok (), s, [])

/-- Embedding of `write_str` itself: the loop started at `cursor = 0` on the
byte encoding of the message. -/
def write_str {σ ε : Type} (send : σ → List Nat → SendResult ε × σ)
    (fuel : Nat) (s : σ) (message : List Nat) :
    Option (Except ε Unit × σ × Trace ε) :=
  writeStrLoop send fuel s message 0

/-- A stack stub that accepts at most 4 bytes per send call
(used by the concrete example of §8 of the spec). -/
def cap4Send : Unit → List Nat → SendResult Unit × Unit :=
  fun _ buf => (SendResult.ok (min 4 buf.length), ())

/-- The ASCII bytes of the message of the concrete example of §8. -/
def helloBytes : List Nat := [104, 101, 108, 108, 111]

/-- A periodic stack stub: starting from counter `N`, it signals would-block
exactly `N` times (counting down), then accepts `min k buf.length` bytes and
resets the counter to `N`; so every eventual success is preceded by exactly
`N` would-block signals. -/
def wbStack (N k : Nat) : Nat → List Nat → SendResult Unit × Nat :=
  fun s buf =>
    if s = 0 then (SendResult.ok (min k buf.length), N)
    else (SendResult.wouldBlock, s - 1)

/-- A misbehaving stack stub whose `send` always reports 3 bytes accepted,
even when the buffer passed holds fewer than 3 bytes. -/
def overshootSend : Unit → List Nat → SendResult Unit × Unit :=
  fun _ _ => (SendResult.ok 3, ())

/-- A stack stub whose `send` always fails with the hard error `42`. -/
def errSend : Unit → List Nat → SendResult Nat × Unit :=
  fun _ _ => (SendResult.error 42, ())

/-- A stack stub whose `send` always signals would-block. -/
def constWBSend : Unit → List Nat → SendResult Unit × Unit :=
  fun _ _ => (SendResult.wouldBlock, ())

/-- A stack stub whose `send` always succeeds accepting 0 bytes. -/
def zeroSend : Unit → List Nat → SendResult Unit × Unit :=
  fun _ _ => (SendResult.ok 0, ())


/-- The error half of nb Result: `nb::Error<E>` is either `WouldBlock`
(a retry-me signal, not a failure) or `Other(e)` wrapping a stack error. -/
inductive NbError (ε : Type) where
  | wouldBlock : NbError ε
  | other : ε → NbError ε
deriving DecidableEq

/-- Behaviour of an external `TcpClientStack` implementation (the trait of
`embedded_nal` consumed by this crate), for the held socket type.  The stack
value (`τ`, the target of `&mut TCS`) and the socket value (`π`, the target
of `&mut TCS::TcpSocket`) are both mutated by every operation, so each
operation returns its result together with the new stack and socket values.
`α` is the `SocketAddr` type and `ε` the stack's associated error type. -/
structure NetStackOps (τ π ε α : Type) where
  connect : τ → π → α → Except (NbError ε) Unit × τ × π
  is_connected : τ → π → Except ε Bool × τ × π
  receive : τ → π → List Nat → Except (NbError ε) Nat × τ × π × List Nat
  send : τ → π → List Nat → Except (NbError ε) Nat × τ × π

/-- Embedding of `StackAndSocket<'a, TCS>` (src/src/lib.rs lines 22-31): it
holds exactly the two references, a `&mut TCS` and a `&mut TCS::TcpSocket`,
and nothing else. -/
structure StackAndSocket (τ π : Type) where
  tcp_stack : τ
  socket : π
deriving DecidableEq

/-- Embedding of `StackAndSocket::new` (src/src/lib.rs lines 37-39):
pure aggregation of the two references. -/
def StackAndSocket.new {τ π : Type} (tcp_stack : τ) (socket : π) :
    StackAndSocket τ π :=
  { tcp_stack := tcp_stack, socket := socket }

/-- Embedding of `TcpClientStackPlus::with_socket` (src/src/lib.rs lines
10-18): the factory method attached to the stack, delegating to `new`. -/
def with_socket {τ π : Type} (self : τ) (socket : π) : StackAndSocket τ π :=
  StackAndSocket.new self socket

/-- Embedding of `StackAndSocket::connect` (src/src/lib.rs lines 45-47):
`self.tcp_stack.connect(self.socket, remote)`. -/
def StackAndSocket.connect {τ π ε α : Type} (I : NetStackOps τ π ε α)
    (self : StackAndSocket τ π) (remote : α) :
    Except (NbError ε) Unit × StackAndSocket τ π :=
  match I.connect self.tcp_stack self.socket remote with
  | (r, t, p) => (r, { tcp_stack := t, socket := p })

/-- Embedding of `StackAndSocket::is_connected` (src/src/lib.rs lines 50-52):
`self.tcp_stack.is_connected(self.socket)`. -/
def StackAndSocket.is_connected {τ π ε α : Type} (I : NetStackOps τ π ε α)
    (self : StackAndSocket τ π) :
    Except ε Bool × StackAndSocket τ π :=
  match I.is_connected self.tcp_stack self.socket with
  | (r, t, p) => (r, { tcp_stack := t, socket := p })

/-- Embedding of `StackAndSocket::receive` (src/src/lib.rs lines 60-62):
`self.tcp_stack.receive(self.socket, buffer)`; the caller's buffer is
mutated, so its new contents are returned alongside. -/
def StackAndSocket.receive {τ π ε α : Type} (I : NetStackOps τ π ε α)
    (self : StackAndSocket τ π) (buffer : List Nat) :
    Except (NbError ε) Nat × StackAndSocket τ π × List Nat :=
  match I.receive self.tcp_stack self.socket buffer with
  | (r, t, p, b) => (r, { tcp_stack := t, socket := p }, b)

/-- Embedding of `StackAndSocket::send` (src/src/lib.rs lines 67-69):
`self.tcp_stack.send(self.socket, buffer)`. -/
def StackAndSocket.send {τ π ε α : Type} (I : NetStackOps τ π ε α)
    (self : StackAndSocket τ π) (buffer : List Nat) :
    Except (NbError ε) Nat × StackAndSocket τ π :=
  match I.send self.tcp_stack self.socket buffer with
  | (r, t, p) => (r, { tcp_stack := t, socket := p })

/-- The combined-state view of the stack's `send` used inside `write_str`:
`|state, buf| self.tcp_stack.send(self.socket, buf)` with the pair
`(stack value, socket value)` as the mutable state, and the `nb::Result`
repackaged as a `SendResult`. -/
def NetStackOps.sasSend {τ π ε α : Type} (I : NetStackOps τ π ε α) :
    τ × π → List Nat → SendResult ε × (τ × π) :=
  fun sp buf =>
    match I.send sp.1 sp.2 buf with
    | (Except.ok n, t, p) => (SendResult.ok n, (t, p))
    | (Except.error NbError.wouldBlock, t, p) => (SendResult.wouldBlock, (t, p))
    | (Except.error (NbError.other e), t, p) => (SendResult.error e, (t, p))

/-- `ufmt::uWrite::write_str` as a method of the pairing: the generic loop
`write_str` run with the pairing's own stack and socket as the state. -/
def StackAndSocket.write_text {τ π ε α : Type} (I : NetStackOps τ π ε α)
    (fuel : Nat) (self : StackAndSocket τ π) (message : List Nat) :
    Option (Except ε Unit × StackAndSocket τ π × Trace ε) :=
  (write_str I.sasSend fuel (self.tcp_stack, self.socket) message).map
    (fun r => (r.1, { tcp_stack := r.2.1.1, socket := r.2.1.2 }, r.2.2))

/-- A concrete stub stack instance used to witness the pass-through
behaviour: connect fails with error 7, is_connected reports true, receive
signals would-block, send accepts the whole buffer. -/
def stubOps : NetStackOps Unit Unit Nat Unit where
  connect := fun _ _ _ => (Except.error (NbError.other 7), (), ())
  is_connected := fun _ _ => (Except.ok true, (), ())
  receive := fun _ _ b => (Except.error NbError.wouldBlock, (), (), b)
  send := fun _ _ b => (Except.ok b.length, (), ())

/-- When the cursor has reached (or passed) the end of the message, the
loop exits at once with `Ok(())`, no send call made, whatever the fuel. -/
theorem writeStrLoop_done {σ ε : Type} (send : σ → List Nat → SendResult ε × σ)
    (fuel : Nat) (s : σ) (message : List Nat) (cursor : Nat)
    (h : ¬ cursor < message.length) :
    writeStrLoop send fuel s message cursor = some (Except.ok (), s, []) := by
  rw [writeStrLoop.eq_def]
  simp [h]

/-- With unsent bytes remaining and no fuel, the loop result is undefined. -/
theorem writeStrLoop_zero {σ ε : Type} (send : σ → List Nat → SendResult ε × σ)
    (s : σ) (message : List Nat) (cursor : Nat)
    (h : cursor < message.length) :
    writeStrLoop send 0 s message cursor = none := by
  rw [writeStrLoop.eq_def]
  simp [h]

/-- Unfolding: a successful send of `n` bytes advances the cursor by `n`
and records the attempt. -/
theorem writeStrLoop_ok {σ ε : Type} (send : σ → List Nat → SendResult ε × σ)
    (fuel : Nat) (s s1 : σ) (message : List Nat) (cursor n : Nat)
    (h : cursor < message.length)
    (hs : send s (message.drop cursor) = (SendResult.ok n, s1)) :
    writeStrLoop send (fuel + 1) s message cursor =
      (writeStrLoop send fuel s1 message (cursor + n)).map
        (fun r => (r.1, r.2.1, (message.drop cursor, SendResult.ok n) :: r.2.2)) := by
  rw [writeStrLoop.eq_def]
  simp [h, hs]

/-- Unfolding: a would-block signal re-attempts the same send, with the
cursor (hence the buffer passed) unchanged, and records the attempt. -/
theorem writeStrLoop_wb {σ ε : Type} (send : σ → List Nat → SendResult ε × σ)
    (fuel : Nat) (s s1 : σ) (message : List Nat) (cursor : Nat)
    (h : cursor < message.length)
    (hs : send s (message.drop cursor) = (SendResult.wouldBlock, s1)) :
    writeStrLoop send (fuel + 1) s message cursor =
      (writeStrLoop send fuel s1 message cursor).map
        (fun r => (r.1, r.2.1, (message.drop cursor, SendResult.wouldBlock) :: r.2.2)) := by
  rw [writeStrLoop.eq_def]
  simp [h, hs]

/-- Unfolding: a hard error ends the loop at once with that error. -/
theorem writeStrLoop_err {σ ε : Type} (send : σ → List Nat → SendResult ε × σ)
    (fuel : Nat) (s s1 : σ) (message : List Nat) (cursor : Nat) (e : ε)
    (h : cursor < message.length)
    (hs : send s (message.drop cursor) = (SendResult.error e, s1)) :
    writeStrLoop send (fuel + 1) s message cursor =
      some (Except.error e, s1, [(message.drop cursor, SendResult.error e)]) := by
  rw [writeStrLoop.eq_def]
  simp [h, hs]


/-- `sumOK` of a cons. -/
theorem sumOK_cons {ε : Type} (e : List Nat × SendResult ε) (tl : Trace ε) :
    sumOK (e :: tl) = okCount e + sumOK tl := by
  simp [sumOK]

/-- On success, the final cursor (start cursor plus all reported counts)
has reached the end of the message: the loop guard `cursor < message.len()`
must have become false. -/
theorem writeStrLoop_length_le_sum {σ ε : Type}
    (send : σ → List Nat → SendResult ε × σ)
    (fuel : Nat) (s : σ) (message : List Nat) (cursor : Nat) (s' : σ)
    (tr : Trace ε)
    (hrun : writeStrLoop send fuel s message cursor =
      some (Except.ok (), s', tr)) :
    message.length ≤ cursor + sumOK tr := by
  induction fuel generalizing s cursor s' tr with
  | zero =>
    by_cases h : cursor < message.length
    · rw [writeStrLoop_zero send s message cursor h] at hrun
      cases hrun
    · omega
  | succ fuel ih =>
    by_cases h : cursor < message.length
    · rcases hsr : send s (message.drop cursor) with ⟨r, s1⟩
      cases r with
      | ok n =>
        rw [writeStrLoop_ok send fuel s s1 message cursor n h hsr] at hrun
        rcases Option.map_eq_some'.mp hrun with ⟨⟨out0, s0, tl⟩, hinner, heq⟩
        cases heq
        have := ih s1 (cursor + n) s0 tl hinner
        rw [sumOK_cons]
        simp only [okCount]
        omega
      | wouldBlock =>
        rw [writeStrLoop_wb send fuel s s1 message cursor h hsr] at hrun
        rcases Option.map_eq_some'.mp hrun with ⟨⟨out0, s0, tl⟩, hinner, heq⟩
        cases heq
        have := ih s1 cursor s0 tl hinner
        rw [sumOK_cons]
        simp only [okCount]
        omega
      | error e =>
        rw [writeStrLoop_err send fuel s s1 message cursor e h hsr] at hrun
        cases hrun
    · omega

/-- If every successful send reports at most as many bytes as the buffer it
was passed holds (the `TcpClientStack::send` contract), the cursor lands
exactly on the message length at success, never past it. -/
theorem writeStrLoop_sum_exact {σ ε : Type}
    (send : σ → List Nat → SendResult ε × σ)
    (hsend : ∀ s buf n s1, send s buf = (SendResult.ok n, s1) → n ≤ buf.length)
    (fuel : Nat) (s : σ) (message : List Nat) (cursor : Nat) (s' : σ)
    (tr : Trace ε)
    (hc : cursor ≤ message.length)
    (hrun : writeStrLoop send fuel s message cursor =
      some (Except.ok (), s', tr)) :
    cursor + sumOK tr = message.length := by
  induction fuel generalizing s cursor s' tr with
  | zero =>
    by_cases h : cursor < message.length
    · rw [writeStrLoop_zero send s message cursor h] at hrun
      cases hrun
    · rw [writeStrLoop_done send 0 s message cursor h] at hrun
      cases hrun
      simp [sumOK]
      omega
  | succ fuel ih =>
    by_cases h : cursor < message.length
    · rcases hsr : send s (message.drop cursor) with ⟨r, s1⟩
      cases r with
      | ok n =>
        rw [writeStrLoop_ok send fuel s s1 message cursor n h hsr] at hrun
        rcases Option.map_eq_some'.mp hrun with ⟨⟨out0, s0, tl⟩, hinner, heq⟩
        cases heq
        have hn := hsend s (message.drop cursor) n s1 hsr
        rw [List.length_drop] at hn
        have := ih s1 (cursor + n) s0 tl (by omega) hinner
        rw [sumOK_cons]
        simp only [okCount]
        omega
      | wouldBlock =>
        rw [writeStrLoop_wb send fuel s s1 message cursor h hsr] at hrun
        rcases Option.map_eq_some'.mp hrun with ⟨⟨out0, s0, tl⟩, hinner, heq⟩
        cases heq
        have := ih s1 cursor s0 tl hc hinner
        rw [sumOK_cons]
        simp only [okCount]
        omega
      | error e =>
        rw [writeStrLoop_err send fuel s s1 message cursor e h hsr] at hrun
        cases hrun
    · rw [writeStrLoop_done send (fuel + 1) s message cursor h] at hrun
      cases hrun
      simp [sumOK]
      omega

/-- On success, the bytes accepted across all send attempts, concatenated in
call order, are exactly the not-yet-sent part of the message. -/
theorem writeStrLoop_accepted {σ ε : Type}
    (send : σ → List Nat → SendResult ε × σ)
    (fuel : Nat) (s : σ) (message : List Nat) (cursor : Nat) (s' : σ)
    (tr : Trace ε)
    (hrun : writeStrLoop send fuel s message cursor =
      some (Except.ok (), s', tr)) :
    acceptedBytes tr = message.drop cursor := by
  induction fuel generalizing s cursor s' tr with
  | zero =>
    by_cases h : cursor < message.length
    · rw [writeStrLoop_zero send s message cursor h] at hrun
      cases hrun
    · rw [writeStrLoop_done send 0 s message cursor h] at hrun
      cases hrun
      rw [List.drop_eq_nil_of_le (by omega)]
      simp [acceptedBytes]
  | succ fuel ih =>
    by_cases h : cursor < message.length
    · rcases hsr : send s (message.drop cursor) with ⟨r, s1⟩
      cases r with
      | ok n =>
        rw [writeStrLoop_ok send fuel s s1 message cursor n h hsr] at hrun
        rcases Option.map_eq_some'.mp hrun with ⟨⟨out0, s0, tl⟩, hinner, heq⟩
        cases heq
        have hrec := ih s1 (cursor + n) s0 tl hinner
        simp only [acceptedBytes, List.map_cons, List.flatten_cons] at hrec ⊢
        rw [hrec, ← List.drop_drop n cursor message, List.take_append_drop]
      | wouldBlock =>
        rw [writeStrLoop_wb send fuel s s1 message cursor h hsr] at hrun
        rcases Option.map_eq_some'.mp hrun with ⟨⟨out0, s0, tl⟩, hinner, heq⟩
        cases heq
        have hrec := ih s1 cursor s0 tl hinner
        simp only [acceptedBytes, List.map_cons, List.flatten_cons] at hrec ⊢
        rw [← hrec]
        simp [acceptedBytes]
      | error e =>
        rw [writeStrLoop_err send fuel s s1 message cursor e h hsr] at hrun
        cases hrun
    · rw [writeStrLoop_done send (fuel + 1) s message cursor h] at hrun
      cases hrun
      rw [List.drop_eq_nil_of_le (by omega)]
      simp [acceptedBytes]

/-- Every recorded send attempt was passed exactly the suffix of the message
starting at the cursor value current at that attempt — the start cursor plus
the byte counts reported by the earlier successful attempts. -/
theorem writeStrLoop_trace_buffers {σ ε : Type}
    (send : σ → List Nat → SendResult ε × σ)
    (fuel : Nat) (s : σ) (message : List Nat) (cursor : Nat)
    (out : Except ε Unit) (s' : σ) (tr : Trace ε)
    (hrun : writeStrLoop send fuel s message cursor = some (out, s', tr)) :
    ∀ i (hi : i < tr.length),
      (tr.get ⟨i, hi⟩).1 = message.drop (cursor + sumOK (tr.take i)) := by
  induction fuel generalizing s cursor out s' tr with
  | zero =>
    by_cases h : cursor < message.length
    · rw [writeStrLoop_zero send s message cursor h] at hrun
      cases hrun
    · rw [writeStrLoop_done send 0 s message cursor h] at hrun
      cases hrun
      intro i hi
      exact absurd hi (by simp)
  | succ fuel ih =>
    by_cases h : cursor < message.length
    · rcases hsr : send s (message.drop cursor) with ⟨r, s1⟩
      cases r with
      | ok n =>
        rw [writeStrLoop_ok send fuel s s1 message cursor n h hsr] at hrun
        rcases Option.map_eq_some'.mp hrun with ⟨⟨out0, s0, tl⟩, hinner, heq⟩
        cases heq
        intro i hi
        cases i with
        | zero => simp [sumOK]
        | succ j =>
          have hj : j < tl.length := by
            simpa using hi
          have hrec := ih s1 (cursor + n) out0 s0 tl hinner j hj
          simp only [List.get_cons_succ, List.take_succ_cons, sumOK_cons,
            okCount] at hrec ⊢
          rw [hrec]
          ring_nf
      | wouldBlock =>
        rw [writeStrLoop_wb send fuel s s1 message cursor h hsr] at hrun
        rcases Option.map_eq_some'.mp hrun with ⟨⟨out0, s0, tl⟩, hinner, heq⟩
        cases heq
        intro i hi
        cases i with
        | zero => simp [sumOK]
        | succ j =>
          have hj : j < tl.length := by
            simpa using hi
          have hrec := ih s1 cursor out0 s0 tl hinner j hj
          simp only [List.get_cons_succ, List.take_succ_cons, sumOK_cons,
            okCount] at hrec ⊢
          rw [hrec]
          ring_nf
      | error e =>
        rw [writeStrLoop_err send fuel s s1 message cursor e h hsr] at hrun
        cases hrun
        intro i hi
        cases i with
        | zero => simp [sumOK]
        | succ j => exact absurd hi (by simp)
    · rw [writeStrLoop_done send (fuel + 1) s message cursor h] at hrun
      cases hrun
      intro i hi
      exact absurd hi (by simp)

/-- If any recorded attempt failed with a hard error `e`, the loop returned
exactly `Err(e)` and that attempt is the last one in the trace — no further
send attempt was made after it. -/
theorem writeStrLoop_error_last {σ ε : Type}
    (send : σ → List Nat → SendResult ε × σ)
    (fuel : Nat) (s : σ) (message : List Nat) (cursor : Nat)
    (out : Except ε Unit) (s' : σ) (tr : Trace ε)
    (hrun : writeStrLoop send fuel s message cursor = some (out, s', tr)) :
    ∀ i (hi : i < tr.length) e, (tr.get ⟨i, hi⟩).2 = SendResult.error e →
      out = Except.error e ∧ i + 1 = tr.length := by
  induction fuel generalizing s cursor out s' tr with
  | zero =>
    by_cases h : cursor < message.length
    · rw [writeStrLoop_zero send s message cursor h] at hrun
      cases hrun
    · rw [writeStrLoop_done send 0 s message cursor h] at hrun
      cases hrun
      intro i hi
      exact absurd hi (by simp)
  | succ fuel ih =>
    by_cases h : cursor < message.length
    · rcases hsr : send s (message.drop cursor) with ⟨r, s1⟩
      cases r with
      | ok n =>
        rw [writeStrLoop_ok send fuel s s1 message cursor n h hsr] at hrun
        rcases Option.map_eq_some'.mp hrun with ⟨⟨out0, s0, tl⟩, hinner, heq⟩
        cases heq
        intro i hi e he
        cases i with
        | zero => cases he
        | succ j =>
          have hj : j < tl.length := by
            simpa using hi
          have hrec :=
            ih s1 (cursor + n) out0 s0 tl hinner j hj e (by simpa using he)
          refine ⟨hrec.1, ?_⟩
          have := hrec.2
          simp only [List.length_cons]
          omega
      | wouldBlock =>
        rw [writeStrLoop_wb send fuel s s1 message cursor h hsr] at hrun
        rcases Option.map_eq_some'.mp hrun with ⟨⟨out0, s0, tl⟩, hinner, heq⟩
        cases heq
        intro i hi e he
        cases i with
        | zero => cases he
        | succ j =>
          have hj : j < tl.length := by
            simpa using hi
          have hrec :=
            ih s1 cursor out0 s0 tl hinner j hj e (by simpa using he)
          refine ⟨hrec.1, ?_⟩
          have := hrec.2
          simp only [List.length_cons]
          omega
      | error e0 =>
        rw [writeStrLoop_err send fuel s s1 message cursor e0 h hsr] at hrun
        cases hrun
        intro i hi e he
        cases i with
        | zero =>
          cases he
          exact ⟨rfl, rfl⟩
        | succ j => exact absurd hi (by simp)
    · rw [writeStrLoop_done send (fuel + 1) s message cursor h] at hrun
      cases hrun
      intro i hi
      exact absurd hi (by simp)

/-- Every recorded attempt really is one application of the underlying
`send`: some states exist at which `send`, given the recorded buffer,
returned the recorded result. -/
theorem writeStrLoop_trace_sound {σ ε : Type}
    (send : σ → List Nat → SendResult ε × σ)
    (fuel : Nat) (s : σ) (message : List Nat) (cursor : Nat)
    (out : Except ε Unit) (s' : σ) (tr : Trace ε)
    (hrun : writeStrLoop send fuel s message cursor = some (out, s', tr)) :
    ∀ ent ∈ tr, ∃ s1 s2, send s1 ent.1 = (ent.2, s2) := by
  induction fuel generalizing s cursor out s' tr with
  | zero =>
    by_cases h : cursor < message.length
    · rw [writeStrLoop_zero send s message cursor h] at hrun
      cases hrun
    · rw [writeStrLoop_done send 0 s message cursor h] at hrun
      cases hrun
      intro ent hent
      cases hent
  | succ fuel ih =>
    by_cases h : cursor < message.length
    · rcases hsr : send s (message.drop cursor) with ⟨r, s1⟩
      cases r with
      | ok n =>
        rw [writeStrLoop_ok send fuel s s1 message cursor n h hsr] at hrun
        rcases Option.map_eq_some'.mp hrun with ⟨⟨out0, s0, tl⟩, hinner, heq⟩
        cases heq
        intro ent hent
        rcases List.mem_cons.mp hent with hhd | htl
        · subst hhd
          exact ⟨s, s1, hsr⟩
        · exact ih s1 (cursor + n) out0 s0 tl hinner ent htl
      | wouldBlock =>
        rw [writeStrLoop_wb send fuel s s1 message cursor h hsr] at hrun
        rcases Option.map_eq_some'.mp hrun with ⟨⟨out0, s0, tl⟩, hinner, heq⟩
        cases heq
        intro ent hent
        rcases List.mem_cons.mp hent with hhd | htl
        · subst hhd
          exact ⟨s, s1, hsr⟩
        · exact ih s1 cursor out0 s0 tl hinner ent htl
      | error e0 =>
        rw [writeStrLoop_err send fuel s s1 message cursor e0 h hsr] at hrun
        cases hrun
        intro ent hent
        rcases List.mem_cons.mp hent with hhd | htl
        · subst hhd
          exact ⟨s, _, hsr⟩
        · cases htl
    · rw [writeStrLoop_done send (fuel + 1) s message cursor h] at hrun
      cases hrun
      intro ent hent
      cases hent

/-- If the stack always signals would-block, the loop never returns while
unsent bytes remain: it diverges for every amount of fuel. -/
theorem writeStrLoop_wb_forever {σ ε : Type}
    (send : σ → List Nat → SendResult ε × σ)
    (hwb : ∀ s buf, (send s buf).1 = SendResult.wouldBlock)
    (message : List Nat) (cursor : Nat) (h : cursor < message.length) :
    ∀ fuel s, writeStrLoop send fuel s message cursor = none := by
  intro fuel
  induction fuel with
  | zero =>
    intro s
    exact writeStrLoop_zero send s message cursor h
  | succ fuel ih =>
    intro s
    rcases hsr : send s (message.drop cursor) with ⟨r, s1⟩
    have hr : r = SendResult.wouldBlock := by
      have := hwb s (message.drop cursor)
      rw [hsr] at this
      exact this
    subst hr
    rw [writeStrLoop_wb send fuel s s1 message cursor h hsr, ih s1]
    rfl

/-- If the stack's send always succeeds accepting 0 bytes, the cursor never
moves, so the loop never returns while unsent bytes remain: it diverges for
every amount of fuel. -/
theorem writeStrLoop_zeroProgress_forever {σ ε : Type}
    (send : σ → List Nat → SendResult ε × σ)
    (h0 : ∀ s buf, (send s buf).1 = SendResult.ok 0)
    (message : List Nat) (cursor : Nat) (h : cursor < message.length) :
    ∀ fuel s, writeStrLoop send fuel s message cursor = none := by
  intro fuel
  induction fuel with
  | zero =>
    intro s
    exact writeStrLoop_zero send s message cursor h
  | succ fuel ih =>
    intro s
    rcases hsr : send s (message.drop cursor) with ⟨r, s1⟩
    have hr : r = SendResult.ok 0 := by
      have := h0 s (message.drop cursor)
      rw [hsr] at this
      exact this
    subst hr
    rw [writeStrLoop_ok send fuel s s1 message cursor 0 h hsr]
    rw [Nat.add_zero, ih s1]
    rfl

/-- `countOK` of a cons. -/
theorem countOK_cons {ε : Type} (e : List Nat × SendResult ε) (tl : Trace ε) :
    countOK (e :: tl) =
      (match e.2 with
        | SendResult.ok _ => 1
        | _ => 0) + countOK tl := by
  cases e with
  | mk b r =>
    cases r <;> simp [countOK, List.countP_cons, Nat.add_comm]

/-- `countWB` of a cons. -/
theorem countWB_cons {ε : Type} (e : List Nat × SendResult ε) (tl : Trace ε) :
    countWB (e :: tl) =
      (match e.2 with
        | SendResult.wouldBlock => 1
        | _ => 0) + countWB tl := by
  cases e with
  | mk b r =>
    cases r <;> simp [countWB, List.countP_cons, Nat.add_comm]

/-- If the loop enters an iteration (unsent bytes remain) and still returns,
at least one send attempt is recorded. -/
theorem writeStrLoop_trace_ne_nil {σ ε : Type}
    (send : σ → List Nat → SendResult ε × σ)
    (fuel : Nat) (s : σ) (message : List Nat) (cursor : Nat)
    (out : Except ε Unit) (s' : σ) (tr : Trace ε)
    (h : cursor < message.length)
    (hrun : writeStrLoop send fuel s message cursor = some (out, s', tr)) :
    tr ≠ [] := by
  cases fuel with
  | zero =>
    rw [writeStrLoop_zero send s message cursor h] at hrun
    cases hrun
  | succ fuel =>
    rcases hsr : send s (message.drop cursor) with ⟨r, s1⟩
    cases r with
    | ok n =>
      rw [writeStrLoop_ok send fuel s s1 message cursor n h hsr] at hrun
      rcases Option.map_eq_some'.mp hrun with ⟨⟨out0, s0, tl⟩, hinner, heq⟩
      cases heq
      simp
    | wouldBlock =>
      rw [writeStrLoop_wb send fuel s s1 message cursor h hsr] at hrun
      rcases Option.map_eq_some'.mp hrun with ⟨⟨out0, s0, tl⟩, hinner, heq⟩
      cases heq
      simp
    | error e =>
      rw [writeStrLoop_err send fuel s s1 message cursor e h hsr] at hrun
      cases hrun
      simp

/-- Attempt counting on the periodic would-block stack: starting from
counter `j`, a completed run whose trace is non-empty records
`N * (number of successes) + j - N` would-block attempts (stated without
subtraction).  With `j = N` this specialises to exactly `N` would-block
attempts per success. -/
theorem wbStack_count (N k : Nat) (message : List Nat) :
    ∀ fuel j cursor (out : Except Unit Unit) s' tr, j ≤ N →
      writeStrLoop (wbStack N k) fuel j message cursor = some (out, s', tr) →
      tr ≠ [] → countWB tr + N = N * countOK tr + j := by
  intro fuel
  induction fuel with
  | zero =>
    intro j cursor out s' tr hj hrun htr
    by_cases h : cursor < message.length
    · rw [writeStrLoop_zero (wbStack N k) j message cursor h] at hrun
      cases hrun
    · rw [writeStrLoop_done (wbStack N k) 0 j message cursor h] at hrun
      cases hrun
      exact absurd rfl htr
  | succ fuel ih =>
    intro j cursor out s' tr hj hrun htr
    by_cases h : cursor < message.length
    · by_cases hj0 : j = 0
      · subst hj0
        have hsr : wbStack N k 0 (message.drop cursor) =
            (SendResult.ok (min k (message.drop cursor).length), N) := by
          simp [wbStack]
        rw [writeStrLoop_ok (wbStack N k) fuel 0 N message cursor _ h hsr]
          at hrun
        rcases Option.map_eq_some'.mp hrun with ⟨⟨out0, s0, tl⟩, hinner, heq⟩
        cases heq
        rw [countWB_cons, countOK_cons]
        simp only
        by_cases htl : tl = []
        · subst htl
          simp [countWB, countOK]
        · have hrec := ih N _ out0 s0 tl (Nat.le_refl N) hinner htl
          rw [Nat.mul_add, Nat.mul_one]
          omega
      · have hsr : wbStack N k j (message.drop cursor) =
            (SendResult.wouldBlock, j - 1) := by
          simp [wbStack, hj0]
        rw [writeStrLoop_wb (wbStack N k) fuel j (j - 1) message cursor h hsr]
          at hrun
        rcases Option.map_eq_some'.mp hrun with ⟨⟨out0, s0, tl⟩, hinner, heq⟩
        cases heq
        have htl : tl ≠ [] :=
          writeStrLoop_trace_ne_nil (wbStack N k) fuel (j - 1) message cursor
            out0 s0 tl h hinner
        have hrec := ih (j - 1) cursor out0 s0 tl (by omega) hinner htl
        rw [countWB_cons, countOK_cons]
        simp only [Nat.zero_add]
        omega
    · rw [writeStrLoop_done (wbStack N k) (fuel + 1) j message cursor h]
        at hrun
      cases hrun
      exact absurd rfl htr

/-- If every attempt of a trace reports at most `k` bytes accepted, the
total reported count is at most `k` times the number of attempts. -/
theorem sumOK_le_mul {ε : Type} (k : Nat) (tr : Trace ε)
    (hb : ∀ ent ∈ tr, okCount ent ≤ k) :
    sumOK tr ≤ k * tr.length := by
  induction tr with
  | nil => simp [sumOK]
  | cons e tl ih =>
    have h1 : okCount e ≤ k := hb e (List.mem_cons_self e tl)
    have h2 : sumOK tl ≤ k * tl.length :=
      ih (fun ent hent => hb ent (List.mem_cons_of_mem e hent))
    rw [sumOK_cons, List.length_cons, Nat.mul_succ]
    exact Nat.add_le_add h1 h2 |>.trans (Nat.le_of_eq (Nat.add_comm _ _))

/-- Ceiling division bound: if `L ≤ k * m` with `k ≥ 1` then
`ceil(L / k) ≤ m`. -/
theorem ceil_div_le (L k m : Nat) (hk : 1 ≤ k) (h : L ≤ k * m) :
    (L + k - 1) / k ≤ m := by
  have h1 : L + k - 1 ≤ k * m + k - 1 :=
    Nat.sub_le_sub_right (Nat.add_le_add_right h k) 1
  have h2 : (L + k - 1) / k ≤ (k * m + k - 1) / k :=
    Nat.div_le_div_right h1
  have h3 : k * m + k - 1 = k * m + (k - 1) := Nat.add_sub_assoc hk _
  have h4 : (k * m + (k - 1)) / k = m + (k - 1) / k :=
    Nat.mul_add_div (by omega) m (k - 1)
  have h5 : (k - 1) / k = 0 := Nat.div_eq_of_lt (by omega)
  rw [h3, h4, h5, Nat.add_zero] at h2
  exact h2

/-- C1: when write_str returns success, the bytes accepted by the underlying
send calls, concatenated in call order, are exactly the byte encoding of the
message — no byte duplicated, none lost — and each send attempt is passed
the suffix of the message starting at the current cursor, the cursor being
the sum of the counts reported accepted by the earlier attempts. -/
theorem C1_write_str_transmits_exactly {σ ε : Type}
    (send : σ → List Nat → SendResult ε × σ)
    (fuel : Nat) (s : σ) (message : List Nat) (s' : σ) (tr : Trace ε)
    (hrun : write_str send fuel s message = some (Except.ok (), s', tr)) :
    acceptedBytes tr = message ∧
      ∀ i (hi : i < tr.length),
        (tr.get ⟨i, hi⟩).1 = message.drop (sumOK (tr.take i)) := by
  constructor
  · have h := writeStrLoop_accepted send fuel s message 0 s' tr hrun
    simpa using h
  · intro i hi
    have h := writeStrLoop_trace_buffers send fuel s message 0
      (Except.ok ()) s' tr hrun i hi
    simpa using h

/-- Witness for C1 on the concrete 4-bytes-per-call stack and the 5-byte
message of §8. -/
theorem C1_witness :
    acceptedBytes ([(helloBytes, SendResult.ok 4), ([111], SendResult.ok 1)] :
        Trace Unit) =
      helloBytes :=
  (C1_write_str_transmits_exactly cap4Send 5 () helloBytes ()
    [(helloBytes, SendResult.ok 4), ([111], SendResult.ok 1)] rfl).1

/-- C2 (counterexample): against a stack whose send reports 3 bytes accepted
on a 2-byte message, write_str returns success after one call while the
cursor (the total reported count) is 3, not the message length 2 — so, as
stated for every stack including over-reporting ones, the claim is false. -/
theorem C2_counterexample :
    write_str overshootSend 5 () [1, 2] =
        some (Except.ok (), (), [([1, 2], SendResult.ok 3)]) ∧
      sumOK ([([1, 2], SendResult.ok 3)] : Trace Unit) = 3 ∧
      ([1, 2] : List Nat).length = 2 ∧ (3 : Nat) ≠ 2 :=
  ⟨rfl, rfl, rfl, by decide⟩

/-- C2 (amended): for every stack whose send never reports more bytes
accepted than the buffer it was passed holds, a successful write_str return
implies the cursor equals the message byte length exactly. -/
theorem C2_success_cursor_eq_length {σ ε : Type}
    (send : σ → List Nat → SendResult ε × σ)
    (hsend : ∀ s buf n s1, send s buf = (SendResult.ok n, s1) → n ≤ buf.length)
    (fuel : Nat) (s : σ) (message : List Nat) (s' : σ) (tr : Trace ε)
    (hrun : write_str send fuel s message = some (Except.ok (), s', tr)) :
    sumOK tr = message.length := by
  have h := writeStrLoop_sum_exact send hsend fuel s message 0 s' tr
    (Nat.zero_le _) hrun
  simpa using h

/-- Witness for the amended C2 on the concrete 4-bytes-per-call stack. -/
theorem C2_witness :
    sumOK ([(helloBytes, SendResult.ok 4), ([111], SendResult.ok 1)] :
        Trace Unit) =
      helloBytes.length :=
  C2_success_cursor_eq_length cap4Send
    (by
      intro s buf n s1 hsr
      simp [cap4Send] at hsr
      omega)
    5 () helloBytes ()
    [(helloBytes, SendResult.ok 4), ([111], SendResult.ok 1)] rfl

/-- C3: if a send attempt fails with a hard error, write_str returns that
exact error value unchanged (the result carries only the error, no partial
byte count) and that attempt is the last — no further attempt is made. -/
theorem C3_error_propagated_immediately {σ ε : Type}
    (send : σ → List Nat → SendResult ε × σ)
    (fuel : Nat) (s : σ) (message : List Nat)
    (out : Except ε Unit) (s' : σ) (tr : Trace ε)
    (hrun : write_str send fuel s message = some (out, s', tr))
    (i : Nat) (hi : i < tr.length) (e : ε)
    (he : (tr.get ⟨i, hi⟩).2 = SendResult.error e) :
    out = Except.error e ∧ i + 1 = tr.length :=
  writeStrLoop_error_last send fuel s message 0 out s' tr hrun i hi e he

/-- Witness for C3 on a stack that fails with error 42 at once. -/
theorem C3_witness :
    (Except.error 42 : Except Nat Unit) = Except.error 42 ∧
      0 + 1 = [(([1, 2] : List Nat), SendResult.error (42 : Nat))].length :=
  C3_error_propagated_immediately errSend 3 () [1, 2] (Except.error 42) ()
    [([1, 2], SendResult.error 42)] rfl 0 (by decide) 42 rfl

/-- C4: on the stack that signals would-block exactly N times before each
eventual success, a completed write_str run records exactly N would-block
attempts per successful attempt; and on a stack that always signals
would-block, write_str never returns (diverges for every fuel) while the
message is non-empty. -/
theorem C4_would_block_retry (N k : Nat) (message : List Nat) :
    (∀ fuel (out : Except Unit Unit) (s' : Nat) (tr : Trace Unit),
      write_str (wbStack N k) fuel N message = some (out, s', tr) →
        countWB tr = N * countOK tr) ∧
    (∀ (σ ε : Type) (send : σ → List Nat → SendResult ε × σ),
      (∀ s buf, (send s buf).1 = SendResult.wouldBlock) →
        message ≠ [] → ∀ fuel s, write_str send fuel s message = none) := by
  constructor
  · intro fuel out s' tr hrun
    by_cases htr : tr = []
    · subst htr
      simp [countWB, countOK]
    · have h := wbStack_count N k message fuel N 0 out s' tr
        (Nat.le_refl N) hrun htr
      omega
  · intro σ ε send hwb hmsg fuel s
    exact writeStrLoop_wb_forever send hwb message 0
      (List.length_pos.mpr hmsg) fuel s

/-- Witness for C4: N = 2 would-block signals per success on a 1-byte
message (trace: two would-blocks, then one success), and divergence on the
always-would-block stack. -/
theorem C4_witness :
    countWB ([([7], SendResult.wouldBlock), ([7], SendResult.wouldBlock),
        ([7], SendResult.ok 1)] : Trace Unit) =
      2 * countOK ([([7], SendResult.wouldBlock), ([7], SendResult.wouldBlock),
        ([7], SendResult.ok 1)] : Trace Unit) ∧
      write_str constWBSend 9 () [7] = none := by
  constructor
  · exact (C4_would_block_retry 2 1 [7]).1 3 (Except.ok ()) 2
      [([7], SendResult.wouldBlock), ([7], SendResult.wouldBlock),
        ([7], SendResult.ok 1)] rfl
  · exact (C4_would_block_retry 2 1 [7]).2 Unit Unit constWBSend
      (fun _ _ => rfl) (by decide) 9 ()

/-- C5: the pairing's connect, is_connected, receive and send are pure
pass-throughs: whatever result (value or error) the underlying stack
operation returns for the held stack, socket and arguments, the pairing's
method returns exactly that result after exactly that one call — the new
pairing holds exactly the stack and socket values produced by that single
underlying call, with no wrapping and no new error kind. -/
theorem C5_pass_through {τ π ε α : Type} (I : NetStackOps τ π ε α)
    (self : StackAndSocket τ π) (remote : α) (buffer : List Nat) :
    (∀ r t p, I.connect self.tcp_stack self.socket remote = (r, t, p) →
      StackAndSocket.connect I self remote = (r, StackAndSocket.mk t p)) ∧
    (∀ r t p, I.is_connected self.tcp_stack self.socket = (r, t, p) →
      StackAndSocket.is_connected I self = (r, StackAndSocket.mk t p)) ∧
    (∀ r t p b, I.receive self.tcp_stack self.socket buffer = (r, t, p, b) →
      StackAndSocket.receive I self buffer = (r, StackAndSocket.mk t p, b)) ∧
    (∀ r t p, I.send self.tcp_stack self.socket buffer = (r, t, p) →
      StackAndSocket.send I self buffer = (r, StackAndSocket.mk t p)) := by
  refine ⟨?_, ?_, ?_, ?_⟩
  · intro r t p h
    simp [StackAndSocket.connect, h]
  · intro r t p h
    simp [StackAndSocket.is_connected, h]
  · intro r t p b h
    simp [StackAndSocket.receive, h]
  · intro r t p h
    simp [StackAndSocket.send, h]

/-- Witness for C5 on a concrete stub stack. -/
theorem C5_witness :
    StackAndSocket.connect stubOps (StackAndSocket.mk () ()) () =
        (Except.error (NbError.other 7), StackAndSocket.mk () ()) ∧
      StackAndSocket.is_connected stubOps (StackAndSocket.mk () ()) =
        (Except.ok true, StackAndSocket.mk () ()) ∧
      StackAndSocket.receive stubOps (StackAndSocket.mk () ()) [5] =
        (Except.error NbError.wouldBlock, StackAndSocket.mk () (), [5]) ∧
      StackAndSocket.send stubOps (StackAndSocket.mk () ()) [5, 6] =
        (Except.ok 2, StackAndSocket.mk () ()) := by
  refine ⟨?_, ?_, ?_, ?_⟩
  · exact (C5_pass_through stubOps (StackAndSocket.mk () ()) () []).1
      _ _ _ rfl
  · exact (C5_pass_through stubOps (StackAndSocket.mk () ()) () []).2.1
      _ _ _ rfl
  · exact (C5_pass_through stubOps (StackAndSocket.mk () ()) () [5]).2.2.1
      _ _ _ _ rfl
  · exact (C5_pass_through stubOps (StackAndSocket.mk () ()) () [5, 6]).2.2.2
      _ _ _ rfl

/-- C6: on a stack that accepts at most k bytes per successful send attempt
(k at least 1), a successful write_str run of a message of byte length L
makes at least ceil(L / k) send attempts. -/
theorem C6_min_send_attempts {σ ε : Type}
    (send : σ → List Nat → SendResult ε × σ) (k : Nat) (hk : 1 ≤ k)
    (hsend : ∀ s buf n s1, send s buf = (SendResult.ok n, s1) → n ≤ k)
    (fuel : Nat) (s : σ) (message : List Nat) (s' : σ) (tr : Trace ε)
    (hrun : write_str send fuel s message = some (Except.ok (), s', tr)) :
    (message.length + k - 1) / k ≤ tr.length := by
  have hlen : message.length ≤ 0 + sumOK tr :=
    writeStrLoop_length_le_sum send fuel s message 0 s' tr hrun
  have hb : ∀ ent ∈ tr, okCount ent ≤ k := by
    intro ent hent
    rcases writeStrLoop_trace_sound send fuel s message 0
      (Except.ok ()) s' tr hrun ent hent with ⟨s1, s2, hs⟩
    cases hr : ent.2 with
    | ok n =>
      rw [hr] at hs
      have hv : okCount ent = n := by
        simp [okCount, hr]
      rw [hv]
      exact hsend s1 ent.1 n s2 hs
    | wouldBlock => simp [okCount, hr]
    | error e => simp [okCount, hr]
  have hmul := sumOK_le_mul k tr hb
  exact ceil_div_le message.length k tr.length hk (by omega)

/-- Witness for C6: k = 4 on the 5-byte message needs at least 2 attempts. -/
theorem C6_witness :
    (helloBytes.length + 4 - 1) / 4 ≤
      ([(helloBytes, SendResult.ok 4), ([111], SendResult.ok 1)] :
        Trace Unit).length :=
  C6_min_send_attempts cap4Send 4 (by decide)
    (by
      intro s buf n s1 hsr
      simp [cap4Send] at hsr
      omega)
    5 () helloBytes ()
    [(helloBytes, SendResult.ok 4), ([111], SendResult.ok 1)] rfl

/-- C7: on a stack stub accepting up to 4 bytes per call, write_str of the
5-byte ASCII message of the codepoints of hello makes exactly two send
calls: the first is passed the full message and accepts 4 bytes (cursor
becomes 4), the second is passed the remaining 1-byte suffix (the byte of
the letter o) and accepts 1 byte (cursor becomes 5), and write_str returns
success. -/
theorem C7_hello_two_calls :
    write_str cap4Send 9 () helloBytes =
        some (Except.ok (), (),
          [(helloBytes, SendResult.ok 4), ([111], SendResult.ok 1)]) ∧
      helloBytes.drop 4 = [111] ∧
      sumOK ([(helloBytes, SendResult.ok 4)] : Trace Unit) = 4 ∧
      sumOK ([(helloBytes, SendResult.ok 4),
        ([111], SendResult.ok 1)] : Trace Unit) = 5 :=
  ⟨rfl, rfl, rfl, rfl⟩

/-- C8: building a pairing is pure aggregation — the result holds exactly
the two given references — and the factory method on the stack produces the
same pairing as direct construction. -/
theorem C8_construction_pure {τ π : Type} (stack : τ) (sock : π) :
    with_socket stack sock = StackAndSocket.new stack sock ∧
      (StackAndSocket.new stack sock).tcp_stack = stack ∧
      (StackAndSocket.new stack sock).socket = sock :=
  ⟨rfl, rfl, rfl⟩

/-- C9: on the empty message, write_str succeeds at once with zero send
calls, for every stack, every state and every fuel (even zero). -/
theorem C9_empty_message {σ ε : Type}
    (send : σ → List Nat → SendResult ε × σ) (fuel : Nat) (s : σ) :
    write_str send fuel s [] = some (Except.ok (), s, []) :=
  writeStrLoop_done send fuel s [] 0 (by simp)

/-- C10: on a stack whose send always reports success with 0 bytes accepted
while unsent bytes remain, the loop makes no progress and write_str never
returns — it diverges for every fuel on every non-empty message. -/
theorem C10_zero_progress_diverges {σ ε : Type}
    (send : σ → List Nat → SendResult ε × σ)
    (h0 : ∀ s buf, (send s buf).1 = SendResult.ok 0)
    (message : List Nat) (hmsg : message ≠ []) :
    ∀ fuel s, write_str send fuel s message = none := by
  intro fuel s
  exact writeStrLoop_zeroProgress_forever send h0 message 0
    (List.length_pos.mpr hmsg) fuel s

/-- Witness for C10 on the always-zero-bytes stack. -/
theorem C10_witness : write_str zeroSend 9 () [7] = none :=
  C10_zero_progress_diverges zeroSend (fun _ _ => rfl) [7] (by decide) 9 ()
